import Mathlib

/-!
Verification of the thread execution-control core (`source/Target/Thread.cpp`)
of the lldb repository: the per-thread plan stack, the completed/discarded
histories, and the decision procedures `ShouldStop`, `ShouldReportStop`,
`ShouldReportRun`, `WillResume` and `GetStopInfo`.

The embedding is shallow: C++ pointer identity of `ThreadPlan *` is modelled
by a numeric `id` field; each virtual call a plan answers during one decision
(`PlanExplainsStop`, `ShouldStop`, `MischiefManaged`, `IsMasterPlan`,
`OkayToDiscard`, `PlanSucceeded`, ...) is modelled as a per-plan field, making
the `Thread` member functions pure functions over an explicit `ThreadState`.
Loops whose C++ form can fail to terminate (`DiscardThreadPlans(false)`, the
pop loops inside `ShouldStop`) are given explicit fuel; theorems only rely on
runs where the fuel is evidently sufficient.  `WillStop` notifications on
plans, which mutate no `Thread` state, are recorded in an explicit trace so
that the call order stated in the spec can be checked.
-/

namespace LLDB

/-- `lldb::StateType` values relevant to the stepping core. -/
inductive StateKind where
  | eStateInvalid
  | eStateRunning
  | eStateStepping
  | eStateStopped
  | eStateSuspended
  | eStateCrashed
deriving DecidableEq, Repr

/-- `lldb::Vote`: the three-valued answer of `ShouldReportStop`/`ShouldReportRun`. -/
inductive Vote where
  | eVoteYes
  | eVoteNo
  | eVoteNoOpinion
deriving DecidableEq, Repr

/-- A `StopInfo` object: its validity flag, the answer its
`ShouldStopSynchronous` would give, and a tag standing for object identity. -/
structure StopInfo where
  isValid : Bool
  shouldStopSync : Bool
  tag : Nat
deriving DecidableEq, Repr

/-- A `ThreadPlan`.  `id` stands for the C++ pointer; the Bool fields record
the answers the plan's virtual methods return during the decision being
analysed (the concrete plan subclasses are outside `Thread.cpp`, so the
`Thread` logic is parametric in them). -/
structure Plan where
  id : Nat
  /-- `IsBasePlan()` -/
  isBase : Bool := false
  /-- `IsMasterPlan()` -/
  isMaster : Bool := false
  /-- `OkayToDiscard()` -/
  okayToDiscard : Bool := false
  /-- `GetPrivate()` -/
  isPrivat : Bool := false
  /-- `PlanSucceeded()` -/
  succeeded : Bool := false
  /-- `MischiefManaged()` -/
  mischief : Bool := false
  /-- `PlanExplainsStop()` -/
  explains : Bool := false
  /-- `TracerExplainsStop()` -/
  tracerExplains : Bool := false
  /-- `ShouldStop(event)` -/
  shouldStopAns : Bool := false
  /-- `ShouldAutoContinue(event)` -/
  autoContinue : Bool := false
  /-- `IsPlanStale()` -/
  isStale : Bool := false
  /-- the value `WillResume(state, is_top_plan)` returns -/
  willResumeAns : Bool := true
  /-- `ValidatePlan(NULL)` -/
  validates : Bool := true
  /-- `GetReturnValueObject()` (`none` = empty sp) -/
  retVal : Option Nat := none
  /-- `GetThreadPlanTracer()` (`none` = no tracer) -/
  tracer : Option Nat := none
  /-- `ShouldReportStop(event)` -/
  reportStopVote : Vote := Vote.eVoteNoOpinion
  /-- `ShouldReportRun(event)` -/
  reportRunVote : Vote := Vote.eVoteNoOpinion
deriving DecidableEq, Repr

/-- The `Thread` state touched by the stepping core: the three plan lists
(`m_plan_stack`, `m_completed_plan_stack`, `m_discarded_plan_stack`, each with
index 0 first and `back()` last), the resume states, and the stop-info cache.
`privateStopReason` models what `GetPrivateStopReason()` (a virtual resolved
outside `Thread.cpp`) currently yields; `processStopId` models
`GetProcess()->GetStopID()` (`none` = no process). -/
structure ThreadState where
  planStack : List Plan
  completed : List Plan := []
  discarded : List Plan := []
  resumeState : StateKind := StateKind.eStateRunning
  temporaryResumeState : StateKind := StateKind.eStateRunning
  actualStopInfo : Option StopInfo := none
  privateStopReason : Option StopInfo := none
  threadStopReasonStopId : Nat := 0
  processStopId : Option Nat := some 0
deriving DecidableEq, Repr

/-- `Thread::GetCurrentPlan` (the C++ asserts the stack is non-empty and
returns `back()`). -/
def getCurrentPlan (s : ThreadState) : Option Plan :=
  s.planStack.getLast?

/-- `Thread::PopPlan`: no-op when the stack has at most one element, else
move `back()` to the completed history and pop it. -/
def popPlan (s : ThreadState) : ThreadState :=
  if s.planStack.length ≤ 1 then s
  else
    match s.planStack.getLast? with
    | none => s
    | some plan =>
        { s with planStack := s.planStack.dropLast
                 completed := s.completed ++ [plan] }

/-- `Thread::DiscardPlan`: same protection as `PopPlan`, but the plan goes to
the discarded history. -/
def discardPlan (s : ThreadState) : ThreadState :=
  if s.planStack.length ≤ 1 then s
  else
    match s.planStack.getLast? with
    | none => s
    | some plan =>
        { s with planStack := s.planStack.dropLast
                 discarded := s.discarded ++ [plan] }

/-- `n` successive `DiscardPlan` calls (the shape of the discard loops in
`Thread.cpp`, which count a signed index down to 1). -/
def iterateDiscard : Nat → ThreadState → ThreadState
  | 0, s => s
  | Nat.succ n, s => iterateDiscard n (discardPlan s)

/-- `Thread::PlanIsBasePlan`: the plan says it is the base plan, or it is
(pointer-)equal to `m_plan_stack[0]`. -/
def planIsBasePlan (s : ThreadState) (p : Plan) : Bool :=
  if p.isBase then true
  else
    match s.planStack.head? with
    | none => false
    | some b => b.id == p.id

/-- The two index loops of `Thread::GetPreviousPlan`: scan a vector from
`size()-1` down to 1 and, at the first index `i` holding the sought pointer,
return the element at `i-1` (index 0 is never matched). -/
def prevInList : List Plan → Nat → Option Plan
  | [], _ => none
  | [_], _ => none
  | a :: b :: rest, pid =>
    match prevInList (b :: rest) pid with
    | some q => some q
    | none => if b.id == pid then some a else none

/-- `Thread::GetPreviousPlan`: search the completed history first; from
`m_completed_plan_stack[0]` step to the top of the active stack; otherwise
search the active stack. -/
def getPreviousPlan (s : ThreadState) (pid : Nat) : Option Plan :=
  match prevInList s.completed pid with
  | some q => some q
  | none =>
    match s.completed.head? with
    | some c0 =>
        if c0.id == pid then s.planStack.getLast?
        else prevInList s.planStack pid
    | none => prevInList s.planStack pid

/-- `Thread::GetCompletedPlan`: the most recent completed plan that is not
private (scanning `m_completed_plan_stack` from the back). -/
def findNonPrivateFromTop : List Plan → Option Plan
  | [] => none
  | p :: rest =>
    match findNonPrivateFromTop rest with
    | some q => some q
    | none => if p.isPrivat then none else some p

/-- `Thread::GetCompletedPlan`. -/
def getCompletedPlan (s : ThreadState) : Option Plan :=
  findNonPrivateFromTop s.completed

/-- `Thread::GetReturnValueObject`: the first non-empty return value object,
scanning the completed history from the back (no private filter). -/
def findRetFromTop : List Plan → Option Nat
  | [] => none
  | p :: rest =>
    match findRetFromTop rest with
    | some v => some v
    | none => p.retVal

/-- `Thread::GetReturnValueObject`. -/
def getReturnValueObject (s : ThreadState) : Option Nat :=
  findRetFromTop s.completed

/-- `Thread::ThreadStoppedForAReason`: `(bool) GetPrivateStopReason()`. -/
def threadStoppedForAReason (s : ThreadState) : Bool :=
  s.privateStopReason.isSome

/-- `Thread::PushPlan` (for a non-null plan): copy the parent's tracer down
if the new plan has none, then `push_back`.  (`DidPush` mutates only the plan
itself.) -/
def pushPlan (s : ThreadState) (p : Plan) : ThreadState :=
  let p' := if p.tracer.isNone
            then { p with tracer := (s.planStack.getLast?).bind Plan.tracer }
            else p
  { s with planStack := s.planStack ++ [p'] }

/-- `Thread::DiscardThreadPlans(true)`: the `force` branch discards
`size()-1` times, leaving only the bottom plan. -/
def discardThreadPlansForce (s : ThreadState) : ThreadState :=
  iterateDiscard (s.planStack.length - 1) s

/-- `Thread::QueueThreadPlan`. -/
def queueThreadPlan (s : ThreadState) (p : Plan) (abortOtherPlans : Bool) :
    ThreadState :=
  let s1 := if abortOtherPlans then discardThreadPlansForce s else s
  pushPlan s1 p

/-- The inner loop of `Thread::DiscardThreadPlansUpToPlan` once the target was
found: at each step, first test whether the current top is the target (setting
`last_one`), then `DiscardPlan`, and stop after the step that discarded the
target; the fuel is the loop counter `i` starting at `size()-1`. -/
def discardUpToAux : Nat → Nat → ThreadState → ThreadState
  | 0, _, s => s
  | Nat.succ n, pid, s =>
    let lastOne := match s.planStack.getLast? with
                   | some p => p.id == pid
                   | none => false
    let s' := discardPlan s
    if lastOne then s' else discardUpToAux n pid s'

/-- `Thread::DiscardThreadPlansUpToPlan`: a null target discards everything
above the bottom plan; otherwise the target is searched at indices
`size()-1 .. 1` and, only if found there, plans are discarded down to and
including it. -/
def discardThreadPlansUpToPlan (s : ThreadState) (target : Option Nat) :
    ThreadState :=
  match target with
  | none => iterateDiscard (s.planStack.length - 1) s
  | some pid =>
    let foundIt := (s.planStack.drop 1).any (fun p => p.id == pid)
    if foundIt then discardUpToAux (s.planStack.length - 1) pid s else s

/-- The scan of `Thread::DiscardThreadPlans(false)` that finds the first
master plan from the top (`master_plan_idx` from `size()-1` down to 0),
returning its index and the plan. -/
def firstMasterFromTop : List Plan → Option (Nat × Plan)
  | [] => none
  | p :: rest =>
    match firstMasterFromTop rest with
    | some (i, q) => some (i + 1, q)
    | none => if p.isMaster then some (0, p) else none

/-- One iteration of the `while (1)` loop of `Thread::DiscardThreadPlans`
with `force == false`: `some s'` means the loop body ran (the first-found
master plan was okay to discard: all dependents above it are discarded, and
the master itself too unless it is the bottom-most entry) and the loop
repeats on `s'`; `none` means the loop breaks.  When no master plan exists
the C++ reads the uninitialized `discard` flag; the model takes the break
branch there, and every theorem below supplies a master plan. -/
def discardThreadPlansStep (s : ThreadState) : Option ThreadState :=
  match firstMasterFromTop s.planStack with
  | none => none
  | some (masterPlanIdx, p) =>
    if p.okayToDiscard then
      let s1 := iterateDiscard (s.planStack.length - 1 - masterPlanIdx) s
      some (if 0 < masterPlanIdx then discardPlan s1 else s1)
    else none

/-- The `while (1)` loop of `Thread::DiscardThreadPlans(false)`, with fuel:
`some s'` is the state at which the loop broke, `none` means the fuel ran out
with the loop still running. -/
def discardThreadPlansLoop : Nat → ThreadState → Option ThreadState
  | 0, _ => none
  | Nat.succ n, s =>
    match discardThreadPlansStep s with
    | none => some s
    | some s' => discardThreadPlansLoop n s'

/-- `Thread::DiscardThreadPlans(false)` never breaks out of its loop from
state `s`. -/
def discardLoopRunsForever (s : ThreadState) : Prop :=
  ∀ n, discardThreadPlansLoop n s = none

/-- What `Thread::GetStopInfo` returns: a freshly synthesized plan-complete
stop info (`StopInfo::CreateStopReasonWithPlan`), or an existing
`StopInfo` object (the cache or the private stop reason), or an empty sp. -/
inductive StopInfoResult where
  | planStop (planId : Nat) (ret : Option Nat)
  | info (si : StopInfo)
  | empty
deriving DecidableEq, Repr

/-- The `else` arm of `Thread::GetStopInfo`: the cached stop info if the
process exists, the cache is valid and its stop id matches the process's
current stop id; otherwise `GetPrivateStopReason()`. -/
def getStopInfoFallback (s : ThreadState) : StopInfoResult :=
  let fromPrivate := match s.privateStopReason with
                     | some si => StopInfoResult.info si
                     | none => StopInfoResult.empty
  match s.processStopId, s.actualStopInfo with
  | some stopId, some si =>
      if si.isValid && s.threadStopReasonStopId == stopId then
        StopInfoResult.info si
      else fromPrivate
  | _, _ => fromPrivate

/-- `Thread::GetStopInfo`. -/
def getStopInfo (s : ThreadState) : StopInfoResult :=
  match getCompletedPlan s with
  | some plan =>
      if plan.succeeded then
        StopInfoResult.planStop plan.id (getReturnValueObject s)
      else getStopInfoFallback s
  | none => getStopInfoFallback s

/-- `Thread::WillResume`: clear both histories, record the temporary resume
state, notify the valid cached stop info, ask the top plan `WillResume(state,
true)` (then every lower plan with `false`, a plan-internal side effect), and
reset the cached stop info when the top plan asked for a real resume.  Returns
the new state and `need_to_resume`. -/
def willResume (s : ThreadState) (resumeState : StateKind) :
    ThreadState × Bool :=
  let s1 := { s with completed := [], discarded := [],
                     temporaryResumeState := resumeState }
  let needToResume := match s1.planStack.getLast? with
                      | some p => p.willResumeAns
                      | none => true
  let s2 := if needToResume then { s1 with actualStopInfo := none } else s1
  (s2, needToResume)

/-- `Thread::ShouldReportStop`. -/
def shouldReportStop (s : ThreadState) : Vote :=
  let threadState := s.resumeState
  let tempThreadState := s.temporaryResumeState
  if threadState == StateKind.eStateSuspended
      || threadState == StateKind.eStateInvalid then
    Vote.eVoteNoOpinion
  else if tempThreadState == StateKind.eStateSuspended
      || tempThreadState == StateKind.eStateInvalid then
    Vote.eVoteNoOpinion
  else if !threadStoppedForAReason s then
    Vote.eVoteNoOpinion
  else
    match s.completed.getLast? with
    | some p => p.reportStopVote
    | none =>
        match getCurrentPlan s with
        | some p => p.reportStopVote
        | none => Vote.eVoteNoOpinion

/-- `Thread::ShouldReportRun`: note that, unlike `ShouldReportStop`, only the
persistent resume state is checked. -/
def shouldReportRun (s : ThreadState) : Vote :=
  let threadState := s.resumeState
  if threadState == StateKind.eStateSuspended
      || threadState == StateKind.eStateInvalid then
    Vote.eVoteNoOpinion
  else
    match s.completed.getLast? with
    | some p => p.reportRunVote
    | none =>
        match getCurrentPlan s with
        | some p => p.reportRunVote
        | none => Vote.eVoteNoOpinion

/-- The downward scan of `Thread::ShouldStop`:
`while ((plan_ptr = GetPreviousPlan(plan_ptr)) != NULL)` stopping at the first
plan whose `PlanExplainsStop()` is true. -/
def scanForExplainingPlan : Nat → ThreadState → Nat → Option Plan
  | 0, _, _ => none
  | Nat.succ n, s, pid =>
    match getPreviousPlan s pid with
    | none => none
    | some q => if q.explains then some q else scanForExplainingPlan n s q.id

/-- The `do { ... } while` pop loop of `Thread::ShouldStop` lines 483-489:
each round calls `WillStop` on the current top (recorded in the trace) when
`should_stop` is set, pops the top to the completed history, and stops once
the new top is `prev_plan_ptr`. -/
def popLoop : Nat → Option Nat → Bool → ThreadState → List Nat →
    ThreadState × List Nat
  | 0, _, _, s, tr => (s, tr)
  | Nat.succ n, prevId, stop, s, tr =>
    let tr2 := if stop then
                 match s.planStack.getLast? with
                 | some p => tr ++ [p.id]
                 | none => tr
               else tr
    let s2 := popPlan s
    if (s2.planStack.getLast?).map Plan.id == prevId then (s2, tr2)
    else popLoop n prevId stop s2 tr2

/-- Result of the explaining-plan phase of `Thread::ShouldStop` (lines
455-505): the state after any pops, the `should_stop` verdict so far, the
`done_processing_current_plan` flag, and the ids of the plans `WillStop` was
called on. -/
structure StopResolution where
  state : ThreadState
  shouldStop : Bool
  done : Bool
  willStopTrace : List Nat
deriving DecidableEq, Repr

/-- Lines 455-505 of `Thread::ShouldStop`: if the current (top) plan does not
explain the stop, either its tracer does (suppress the stop), or the first
previous plan that explains it is asked `ShouldStop`; if that plan reports
`MischiefManaged`, every plan from the top down through it is popped, and
`done_processing_current_plan` is set exactly when the explaining plan is a
master plan that is not okay to discard. -/
def resolveCurrentPlan (s : ThreadState) : StopResolution :=
  match s.planStack.getLast? with
  | none => ⟨s, true, false, []⟩
  | some currentPlan =>
    if currentPlan.explains then ⟨s, true, false, []⟩
    else if currentPlan.tracerExplains then ⟨s, false, true, []⟩
    else
      match scanForExplainingPlan (s.completed.length + s.planStack.length) s
          currentPlan.id with
      | none => ⟨s, true, false, []⟩
      | some planPtr =>
        let stop := planPtr.shouldStopAns
        if planPtr.mischief then
          let prevId := (getPreviousPlan s planPtr.id).map Plan.id
          let r := popLoop s.planStack.length prevId stop s []
          ⟨r.1, stop, planPtr.isMaster && !planPtr.okayToDiscard, r.2⟩
        else ⟨s, stop, true, []⟩

/-- The top-plan loop of `Thread::ShouldStop` (lines 525-562): ask the top
plan `ShouldStop` until a plan that is not `MischiefManaged` (or the base
plan) is reached; each managed plan gets `WillStop` (traced) when it voted to
stop and is then popped; a master plan that voted to stop and is not okay to
discard is popped and the loop breaks at once with its verdict. -/
def topPlanLoop : Nat → ThreadState → Bool → List Nat →
    ThreadState × Bool × List Nat
  | 0, s, stop, tr => (s, stop, tr)
  | Nat.succ n, s, stop, tr =>
    match s.planStack.getLast? with
    | none => (s, stop, tr)
    | some currentPlan =>
      if planIsBasePlan s currentPlan then (s, stop, tr)
      else
        let stop2 := currentPlan.shouldStopAns
        if currentPlan.mischief then
          let tr2 := if stop2 then tr ++ [currentPlan.id] else tr
          if stop2 && currentPlan.isMaster && !currentPlan.okayToDiscard then
            (popPlan s, stop2, tr2)
          else
            let s2 := popPlan s
            match s2.planStack.getLast? with
            | none => (s2, stop2, tr2)
            | some _ => topPlanLoop n s2 stop2 tr2
        else (s, stop2, tr)

/-- The stale-plan sweep of `Thread::ShouldStop` (lines 573-589): walk from
the top plan down to the base; a plan reporting itself stale is discarded
together with everything above it (the predecessor for the walk is computed
before the discard). -/
def staleSweepAux : Nat → ThreadState → Option Plan → ThreadState
  | 0, s, _ => s
  | Nat.succ n, s, op =>
    match op with
    | none => s
    | some p =>
      if planIsBasePlan s p then s
      else
        let next := getPreviousPlan s p.id
        let s2 := if p.isStale then discardThreadPlansUpToPlan s (some p.id)
                  else s
        staleSweepAux n s2 next

/-- The stale-plan sweep, started at the current top plan. -/
def staleSweep (s : ThreadState) : ThreadState :=
  staleSweepAux (s.completed.length + s.planStack.length) s
    s.planStack.getLast?

/-- Lines 507-591 of `Thread::ShouldStop`, run when
`done_processing_current_plan` is false: read the auto-continue override from
the current top plan, let the base plan decide directly if it is on top, else
run the top-plan loop; apply the override, and run the stale sweep when the
final verdict is to stop. -/
def runTopPlanPhase (s : ThreadState) (stop0 : Bool) :
    ThreadState × Bool × List Nat :=
  match s.planStack.getLast? with
  | none => (s, stop0, [])
  | some currentPlan =>
    let overRideStop := currentPlan.autoContinue
    let r := if planIsBasePlan s currentPlan then
               (s, currentPlan.shouldStopAns, ([] : List Nat))
             else topPlanLoop s.planStack.length s stop0 []
    let stop2 := if overRideStop then false else r.2.1
    let s2 := if stop2 then staleSweep r.1 else r.1
    (s2, stop2, r.2.2)

/-- The body of `Thread::ShouldStop` after its early returns: resolve the
explaining plan, then (unless that phase said processing is done) run the
top-plan phase. -/
def shouldStopCore (s : ThreadState) : ThreadState × Bool × List Nat :=
  let r := resolveCurrentPlan s
  if r.done then (r.state, r.shouldStop, r.willStopTrace)
  else
    let r2 := runTopPlanPhase r.state r.shouldStop
    (r2.1, r2.2.1, r.willStopTrace ++ r2.2.2)

/-- `Thread::ShouldStop`: early false when the resume state or the temporary
resume state is suspended, or the thread has no stop reason, or the private
stop info's `ShouldStopSynchronous` declines; else the core decision. -/
def shouldStop (s : ThreadState) : ThreadState × Bool :=
  if s.resumeState == StateKind.eStateSuspended then (s, false)
  else if s.temporaryResumeState == StateKind.eStateSuspended then (s, false)
  else if threadStoppedForAReason s == false then (s, false)
  else
    match s.privateStopReason with
    | some si =>
        if si.shouldStopSync == false then (s, false)
        else ((shouldStopCore s).1, (shouldStopCore s).2.1)
    | none => ((shouldStopCore s).1, (shouldStopCore s).2.1)

/-- `Thread::QueueThreadPlanForStepOut`: construct the plan, validate it,
queue only on success, and return null on failure. -/
def queueThreadPlanForStepOut (s : ThreadState) (abortOtherPlans : Bool)
    (p : Plan) : ThreadState × Option Nat :=
  if p.validates then (queueThreadPlan s p abortOtherPlans, some p.id)
  else (s, none)

/-- `Thread::QueueThreadPlanForStepThrough`: same null-on-validation-failure
contract. -/
def queueThreadPlanForStepThrough (s : ThreadState) (abortOtherPlans : Bool)
    (p : Plan) : ThreadState × Option Nat :=
  if !p.validates then (s, none)
  else (queueThreadPlan s p abortOtherPlans, some p.id)

/-! ## General lemmas about the stack primitives -/

theorem popPlan_concat (s : ThreadState) (l : List Plan) (p : Plan)
    (hs : s.planStack = l ++ [p]) (hl : l ≠ []) :
    popPlan s = { s with planStack := l, completed := s.completed ++ [p] } := by
  have hpos : 0 < l.length := List.length_pos.mpr hl
  have hlen : ¬ (s.planStack.length ≤ 1) := by
    rw [hs]; simp only [List.length_append, List.length_cons, List.length_nil]
    omega
  unfold popPlan
  rw [if_neg hlen, hs, List.getLast?_concat, List.dropLast_concat]

theorem discardPlan_concat (s : ThreadState) (l : List Plan) (p : Plan)
    (hs : s.planStack = l ++ [p]) (hl : l ≠ []) :
    discardPlan s = { s with planStack := l, discarded := s.discarded ++ [p] } := by
  have hpos : 0 < l.length := List.length_pos.mpr hl
  have hlen : ¬ (s.planStack.length ≤ 1) := by
    rw [hs]; simp only [List.length_append, List.length_cons, List.length_nil]
    omega
  unfold discardPlan
  rw [if_neg hlen, hs, List.getLast?_concat, List.dropLast_concat]

theorem popPlan_small (s : ThreadState) (h : s.planStack.length ≤ 1) :
    popPlan s = s := by
  unfold popPlan; rw [if_pos h]

theorem discardPlan_small (s : ThreadState) (h : s.planStack.length ≤ 1) :
    discardPlan s = s := by
  unfold discardPlan; rw [if_pos h]

/-- Both single-plan removal primitives keep the bottom (base) plan in place
and keep the stack non-empty. -/
def BasePlanPreserved (s s' : ThreadState) : Prop :=
  s'.planStack.head? = s.planStack.head? ∧ s'.planStack ≠ []

theorem basePlanPreserved_refl (s : ThreadState) (h : s.planStack ≠ []) :
    BasePlanPreserved s s := ⟨rfl, h⟩

theorem basePlanPreserved_trans {s t u : ThreadState}
    (h1 : BasePlanPreserved s t) (h2 : BasePlanPreserved t u) :
    BasePlanPreserved s u := ⟨h2.1.trans h1.1, h2.2⟩

theorem dropLast_head_two (a b : Plan) (l : List Plan) :
    ((a :: b :: l).dropLast).head? = some a ∧ (a :: b :: l).dropLast ≠ [] := by
  constructor
  · rfl
  · show a :: (b :: l).dropLast ≠ []
    simp

theorem exists_two_of_len (s : ThreadState) (hl : ¬ s.planStack.length ≤ 1) :
    ∃ a b rest, s.planStack = a :: b :: rest := by
  rcases hs : s.planStack with _ | ⟨a, _ | ⟨b, rest⟩⟩
  · rw [hs] at hl; simp at hl
  · rw [hs] at hl; simp at hl
  · exact ⟨a, b, rest, rfl⟩

theorem popPlan_preserve (s : ThreadState) (h : s.planStack ≠ []) :
    BasePlanPreserved s (popPlan s) := by
  by_cases hl : s.planStack.length ≤ 1
  · rw [popPlan_small s hl]; exact basePlanPreserved_refl s h
  · obtain ⟨a, b, rest, hs⟩ := exists_two_of_len s hl
    have h2 : s.planStack = (a :: b :: rest).dropLast
        ++ [(a :: b :: rest).getLast (by simp)] := by
      rw [hs]; exact (List.dropLast_append_getLast (by simp)).symm
    have hne : (a :: b :: rest).dropLast ≠ [] := (dropLast_head_two a b rest).2
    rw [popPlan_concat s _ _ h2 hne]
    refine ⟨?_, hne⟩
    show ((a :: b :: rest).dropLast).head? = s.planStack.head?
    rw [hs]; exact (dropLast_head_two a b rest).1

theorem discardPlan_preserve (s : ThreadState) (h : s.planStack ≠ []) :
    BasePlanPreserved s (discardPlan s) := by
  by_cases hl : s.planStack.length ≤ 1
  · rw [discardPlan_small s hl]; exact basePlanPreserved_refl s h
  · obtain ⟨a, b, rest, hs⟩ := exists_two_of_len s hl
    have h2 : s.planStack = (a :: b :: rest).dropLast
        ++ [(a :: b :: rest).getLast (by simp)] := by
      rw [hs]; exact (List.dropLast_append_getLast (by simp)).symm
    have hne : (a :: b :: rest).dropLast ≠ [] := (dropLast_head_two a b rest).2
    rw [discardPlan_concat s _ _ h2 hne]
    refine ⟨?_, hne⟩
    show ((a :: b :: rest).dropLast).head? = s.planStack.head?
    rw [hs]; exact (dropLast_head_two a b rest).1

theorem iterateDiscard_preserve :
    ∀ (n : Nat) (s : ThreadState), s.planStack ≠ [] →
    BasePlanPreserved s (iterateDiscard n s)
  | 0, s, h => basePlanPreserved_refl s h
  | Nat.succ n, s, h => by
    have h1 := discardPlan_preserve s h
    have h2 := iterateDiscard_preserve n (discardPlan s) h1.2
    exact basePlanPreserved_trans h1 h2

theorem discardUpToAux_preserve :
    ∀ (n pid : Nat) (s : ThreadState), s.planStack ≠ [] →
    BasePlanPreserved s (discardUpToAux n pid s)
  | 0, _, s, h => basePlanPreserved_refl s h
  | Nat.succ n, pid, s, h => by
    have h1 := discardPlan_preserve s h
    unfold discardUpToAux
    by_cases hlast : (match s.planStack.getLast? with
                      | some p => p.id == pid
                      | none => false) = true
    · simp only [hlast, if_true]; exact h1
    · simp only [eq_false_of_ne_true hlast, if_false]
      exact basePlanPreserved_trans h1
        (discardUpToAux_preserve n pid (discardPlan s) h1.2)

theorem discardThreadPlansUpToPlan_preserve (s : ThreadState)
    (h : s.planStack ≠ []) (target : Option Nat) :
    BasePlanPreserved s (discardThreadPlansUpToPlan s target) := by
  unfold discardThreadPlansUpToPlan
  match target with
  | none => exact iterateDiscard_preserve _ s h
  | some pid =>
    by_cases hf : ((s.planStack.drop 1).any fun p => p.id == pid) = true
    · simp only [hf, if_true]; exact discardUpToAux_preserve _ pid s h
    · simp only [eq_false_of_ne_true hf, if_false]
      exact basePlanPreserved_refl s h

theorem discardThreadPlansStep_preserve (s s' : ThreadState)
    (h : s.planStack ≠ []) (hstep : discardThreadPlansStep s = some s') :
    BasePlanPreserved s s' := by
  unfold discardThreadPlansStep at hstep
  cases hm : firstMasterFromTop s.planStack with
  | none => rw [hm] at hstep; exact absurd hstep (by simp)
  | some mp =>
    obtain ⟨idx, p⟩ := mp
    rw [hm] at hstep
    dsimp only at hstep
    by_cases hok : p.okayToDiscard = true
    · rw [if_pos hok, Option.some.injEq] at hstep
      have h1 := iterateDiscard_preserve (s.planStack.length - 1 - idx) s h
      by_cases hidx : 0 < idx
      · rw [if_pos hidx] at hstep
        exact hstep ▸ basePlanPreserved_trans h1
          (discardPlan_preserve _ h1.2)
      · rw [if_neg hidx] at hstep
        exact hstep ▸ h1
    · rw [if_neg hok] at hstep
      exact absurd hstep (by simp)

theorem discardThreadPlansLoop_preserve :
    ∀ (n : Nat) (s s' : ThreadState), s.planStack ≠ [] →
    discardThreadPlansLoop n s = some s' → BasePlanPreserved s s'
  | 0, _, _, _, hloop => absurd hloop (by simp [discardThreadPlansLoop])
  | Nat.succ n, s, s', h, hloop => by
    unfold discardThreadPlansLoop at hloop
    match hstep : discardThreadPlansStep s with
    | none =>
      rw [hstep] at hloop
      cases hloop
      exact basePlanPreserved_refl s h
    | some s1 =>
      rw [hstep] at hloop
      have h1 := discardThreadPlansStep_preserve s s1 h hstep
      exact basePlanPreserved_trans h1
        (discardThreadPlansLoop_preserve n s1 s' h1.2 hloop)

/-! ## C1: the base plan is never removed -/

/-- All parts of claim C1: `PopPlan`, `DiscardPlan`, the discard family and
the `DiscardThreadPlans(false)` loop keep `m_plan_stack[0]` in place and the
stack non-empty, and `PopPlan` on a one-element stack changes nothing. -/
def C1Prop (s : ThreadState) : Prop :=
  BasePlanPreserved s (popPlan s) ∧
  BasePlanPreserved s (discardPlan s) ∧
  (∀ target, BasePlanPreserved s (discardThreadPlansUpToPlan s target)) ∧
  BasePlanPreserved s (discardThreadPlansForce s) ∧
  (∀ n s', discardThreadPlansLoop n s = some s' → BasePlanPreserved s s') ∧
  (s.planStack.length = 1 → popPlan s = s)

/-- C1: for every thread state with a non-empty plan stack, the stack stays
non-empty with the same bottom plan under `PopPlan`, `DiscardPlan`,
`DiscardThreadPlansUpToPlan`, `DiscardThreadPlans` (both the force branch and
every terminating run of the non-force loop), and `PopPlan` on a stack of
size one is a no-op, leaving size and both histories unchanged. -/
theorem basePlan_never_removed (s : ThreadState) (h : s.planStack ≠ []) :
    C1Prop s := by
  refine ⟨popPlan_preserve s h, discardPlan_preserve s h,
    fun target => discardThreadPlansUpToPlan_preserve s h target,
    iterateDiscard_preserve _ s h,
    fun n s' hloop => discardThreadPlansLoop_preserve n s s' h hloop,
    fun hlen => popPlan_small s (by omega)⟩

/-- Witness for C1 at a concrete two-plan stack. -/
def planW0 : Plan := { id := 0, isBase := true, isMaster := true }

/-- Witness plan sitting above the base plan. -/
def planW1 : Plan := { id := 1 }

/-- Witness state for C1. -/
def stateC1 : ThreadState := { planStack := [planW0, planW1] }

theorem basePlan_never_removed_witness :
    stateC1.planStack ≠ [] ∧ C1Prop stateC1 :=
  ⟨by decide, basePlan_never_removed stateC1 (by decide)⟩

/-! ## C9: validation failure leaves the plan stack untouched -/

/-- C9: when `ValidatePlan` fails, `QueueThreadPlanForStepOut` and
`QueueThreadPlanForStepThrough` return a null plan, queue nothing, and leave
the whole thread state (in particular the plan-stack size) unchanged. -/
theorem queueStepOut_validate_fail_spec (s : ThreadState)
    (abortOtherPlans : Bool) (p : Plan) (h : p.validates = false) :
    queueThreadPlanForStepOut s abortOtherPlans p = (s, none) ∧
    queueThreadPlanForStepThrough s abortOtherPlans p = (s, none) ∧
    (queueThreadPlanForStepOut s abortOtherPlans p).1.planStack.length
      = s.planStack.length := by
  unfold queueThreadPlanForStepOut queueThreadPlanForStepThrough
  rw [h]
  exact ⟨rfl, rfl, rfl⟩

/-- Witness plan failing validation. -/
def planInvalid : Plan := { id := 7, validates := false }

theorem queueStepOut_validate_fail_witness :
    planInvalid.validates = false ∧
    (queueThreadPlanForStepOut stateC1 true planInvalid = (stateC1, none) ∧
     queueThreadPlanForStepThrough stateC1 true planInvalid = (stateC1, none) ∧
     (queueThreadPlanForStepOut stateC1 true planInvalid).1.planStack.length
       = stateC1.planStack.length) :=
  ⟨by decide, queueStepOut_validate_fail_spec stateC1 true planInvalid (by decide)⟩

/-! ## C10: discarding up to a plan that is not on the active stack -/

/-- C10: `DiscardThreadPlansUpToPlan` with a non-null target that is not an
element of the active plan stack changes nothing: active stack, completed
history and discarded history are all untouched. -/
theorem discardUpToPlan_absent_target_noop (s : ThreadState) (pid : Nat)
    (h : ∀ p ∈ s.planStack, p.id ≠ pid) :
    discardThreadPlansUpToPlan s (some pid) = s := by
  unfold discardThreadPlansUpToPlan
  have hfound : ((s.planStack.drop 1).any fun p => p.id == pid) = false := by
    rw [List.any_eq_false]
    intro p hp
    have hmem : p ∈ s.planStack := by
      have := List.drop_subset 1 s.planStack
      exact this hp
    simp [h p hmem]
  dsimp only
  rw [hfound]
  simp

/-- Witness state for C10: the target id 99 is on no list. -/
theorem discardUpToPlan_absent_target_witness :
    (∀ p ∈ stateC1.planStack, p.id ≠ 99) ∧
    discardThreadPlansUpToPlan stateC1 (some 99) = stateC1 :=
  ⟨by decide, discardUpToPlan_absent_target_noop stateC1 99 (by decide)⟩

/-! ## C4: WillResume -/

/-- Behaviour of `Thread::WillResume`: both histories are cleared, the
requested state becomes the temporary resume state, the returned flag is the
top plan's `WillResume` answer, and the cached stop info is reset exactly
when that answer requests a real resume (on a fake resume the plan's own stop
info is kept). -/
def C4Prop (s : ThreadState) (rs : StateKind) : Prop :=
  (willResume s rs).1.completed = [] ∧
  (willResume s rs).1.discarded = [] ∧
  (willResume s rs).1.temporaryResumeState = rs ∧
  (willResume s rs).2 = (match s.planStack.getLast? with
                         | some p => p.willResumeAns
                         | none => true) ∧
  (willResume s rs).1.actualStopInfo =
    (if (willResume s rs).2 then none else s.actualStopInfo) ∧
  (willResume s rs).1.planStack = s.planStack

/-- C4 (amended): `WillResume` starts by clearing the completed and discarded
histories and recording the temporary resume state; the cached StopInfo is
cleared when the top plan answers `true` (real resume) and kept when it
signals a fake resume. -/
theorem willResume_spec (s : ThreadState) (rs : StateKind) : C4Prop s rs := by
  unfold C4Prop willResume
  cases hg : s.planStack.getLast? with
  | none => simp [hg]
  | some p =>
    cases hw : p.willResumeAns <;> simp [hg, hw]

/-- Cached stop info in the C4 counterexample. -/
def siC4 : StopInfo := { isValid := true, shouldStopSync := true, tag := 9 }

/-- Top plan signalling a fake resume (`WillResume` returns false). -/
def planFakeResume : Plan := { id := 3, willResumeAns := false }

/-- Counterexample state for C4. -/
def stateC4 : ThreadState :=
  { planStack := [planW0, planFakeResume], actualStopInfo := some siC4 }

/-- C4 counterexample: the top plan signals a fake resume, yet the cached
StopInfo is NOT cleared — `Thread::WillResume` resets it only when
`need_to_resume` is true, the opposite of what the claim states. -/
theorem willResume_fake_keeps_stopinfo_cex :
    (willResume stateC4 StateKind.eStateStepping).2 = false ∧
    stateC4.actualStopInfo = some siC4 ∧
    (willResume stateC4 StateKind.eStateStepping).1.actualStopInfo
      = some siC4 := by decide

/-! ## C5: GetStopInfo priority -/

/-- Result of `GetPrivateStopReason()` as `Thread::GetStopInfo` returns it. -/
def privateStopResult (s : ThreadState) : StopInfoResult :=
  match s.privateStopReason with
  | some si => StopInfoResult.info si
  | none => StopInfoResult.empty

/-- The priority order of `Thread::GetStopInfo`: a succeeded completed
non-private plan wins and its StopInfo carries the THREAD's return value
object (`GetReturnValueObject`, the most recent non-empty one, private plans
included); else the valid, stop-id-matching cache; else the private stop
reason. -/
def C5Prop (s : ThreadState) : Prop :=
  (∀ p, getCompletedPlan s = some p → p.succeeded = true →
      getStopInfo s = StopInfoResult.planStop p.id (getReturnValueObject s)) ∧
  (∀ p, getCompletedPlan s = some p → p.succeeded = false →
      getStopInfo s = getStopInfoFallback s) ∧
  (getCompletedPlan s = none → getStopInfo s = getStopInfoFallback s) ∧
  (∀ sid si, s.processStopId = some sid → s.actualStopInfo = some si →
      si.isValid = true → s.threadStopReasonStopId = sid →
      getStopInfoFallback s = StopInfoResult.info si) ∧
  (∀ sid si, s.processStopId = some sid → s.actualStopInfo = some si →
      (si.isValid && s.threadStopReasonStopId == sid) = false →
      getStopInfoFallback s = privateStopResult s) ∧
  (s.actualStopInfo = none → getStopInfoFallback s = privateStopResult s) ∧
  (s.processStopId = none → getStopInfoFallback s = privateStopResult s)

/-- C5 (amended): the resolution order of `Thread::GetStopInfo`. -/
theorem getStopInfo_priority_spec (s : ThreadState) : C5Prop s := by
  refine ⟨?_, ?_, ?_, ?_, ?_, ?_, ?_⟩
  · intro p hp hsucc
    unfold getStopInfo
    rw [hp]
    simp [hsucc]
  · intro p hp hsucc
    unfold getStopInfo
    rw [hp]
    simp [hsucc]
  · intro hp
    unfold getStopInfo
    rw [hp]
  · intro sid si hpid hsi hvalid htag
    unfold getStopInfoFallback
    rw [hpid, hsi]
    simp [hvalid, htag]
  · intro sid si hpid hsi hcond
    unfold getStopInfoFallback privateStopResult
    rw [hpid, hsi]
    simp [hcond]
  · intro hsi
    unfold getStopInfoFallback privateStopResult
    rw [hsi]
    cases s.processStopId <;> rfl
  · intro hpid
    unfold getStopInfoFallback privateStopResult
    rw [hpid]

/-- Completed, succeeded, non-private plan with its own return value. -/
def planNP : Plan := { id := 10, succeeded := true, retVal := some 1 }

/-- More recently completed private plan with a different return value. -/
def planPriv : Plan := { id := 11, isPrivat := true, retVal := some 2 }

/-- Counterexample state for C5. -/
def stateC5 : ThreadState :=
  { planStack := [planW0], completed := [planNP, planPriv] }

/-- C5 counterexample: the plan-complete StopInfo does not carry the
completed plan's own return value object (`some 1`) but the thread's
`GetReturnValueObject()` (`some 2`, contributed by a more recent private
completed plan). -/
theorem getStopInfo_retval_cex :
    getCompletedPlan stateC5 = some planNP ∧
    planNP.succeeded = true ∧
    planNP.retVal = some 1 ∧
    getStopInfo stateC5 = StopInfoResult.planStop planNP.id (some 2) := by
  decide

/-! ## C6: ShouldReportStop / ShouldReportRun -/

/-- Guard structure of the two vote functions: `ShouldReportStop` short
circuits on a suspended/invalid resume state, a suspended/invalid temporary
resume state, or a missing stop reason; `ShouldReportRun` checks only the
persistent resume state; both then delegate to the most recently completed
plan (no private filter) and otherwise to the current top plan. -/
def C6Prop (s : ThreadState) : Prop :=
  ((s.resumeState = StateKind.eStateSuspended ∨
    s.resumeState = StateKind.eStateInvalid) →
      shouldReportStop s = Vote.eVoteNoOpinion ∧
      shouldReportRun s = Vote.eVoteNoOpinion) ∧
  ((s.temporaryResumeState = StateKind.eStateSuspended ∨
    s.temporaryResumeState = StateKind.eStateInvalid) →
      shouldReportStop s = Vote.eVoteNoOpinion) ∧
  (threadStoppedForAReason s = false →
      shouldReportStop s = Vote.eVoteNoOpinion) ∧
  (s.resumeState ≠ StateKind.eStateSuspended →
   s.resumeState ≠ StateKind.eStateInvalid →
   s.temporaryResumeState ≠ StateKind.eStateSuspended →
   s.temporaryResumeState ≠ StateKind.eStateInvalid →
   threadStoppedForAReason s = true →
      shouldReportStop s = (match s.completed.getLast? with
        | some p => p.reportStopVote
        | none => match getCurrentPlan s with
                  | some p => p.reportStopVote
                  | none => Vote.eVoteNoOpinion)) ∧
  (s.resumeState ≠ StateKind.eStateSuspended →
   s.resumeState ≠ StateKind.eStateInvalid →
      shouldReportRun s = (match s.completed.getLast? with
        | some p => p.reportRunVote
        | none => match getCurrentPlan s with
                  | some p => p.reportRunVote
                  | none => Vote.eVoteNoOpinion))

/-- C6 (amended): `ShouldReportStop` has all three no-opinion guards, while
`ShouldReportRun` short-circuits only on the persistent resume state being
suspended or invalid; past the guards each delegates to the most recently
completed plan when the completed history is non-empty (no private filter),
else to the current top plan. -/
theorem shouldReport_votes_spec (s : ThreadState) : C6Prop s := by
  unfold C6Prop shouldReportStop shouldReportRun
  refine ⟨?_, ?_, ?_, ?_, ?_⟩
  · rintro (h | h) <;> rw [h] <;> simp
  · intro h
    by_cases h1 : (s.resumeState == StateKind.eStateSuspended
        || s.resumeState == StateKind.eStateInvalid) = true
    · simp [h1]
    · rcases h with h | h <;> rw [h] <;> simp [h1]
  · intro h
    by_cases h1 : (s.resumeState == StateKind.eStateSuspended
        || s.resumeState == StateKind.eStateInvalid) = true
    · simp [h1]
    · by_cases h2 : (s.temporaryResumeState == StateKind.eStateSuspended
          || s.temporaryResumeState == StateKind.eStateInvalid) = true
      · simp [h1, h2]
      · simp [h1, h2, h]
  · intro h1 h2 h3 h4 h5
    have g1 : (s.resumeState == StateKind.eStateSuspended
        || s.resumeState == StateKind.eStateInvalid) = false := by
      simp [h1, h2]
    have g2 : (s.temporaryResumeState == StateKind.eStateSuspended
        || s.temporaryResumeState == StateKind.eStateInvalid) = false := by
      simp [h3, h4]
    simp [g1, g2, h5]
  · intro h1 h2
    have g1 : (s.resumeState == StateKind.eStateSuspended
        || s.resumeState == StateKind.eStateInvalid) = false := by
      simp [h1, h2]
    simp [g1]

/-- Completed plan voting yes on both questions. -/
def planVotes : Plan :=
  { id := 12, reportStopVote := Vote.eVoteYes, reportRunVote := Vote.eVoteYes }

/-- Counterexample state for C6: temporary resume state suspended and no
stop reason. -/
def stateC6 : ThreadState :=
  { planStack := [planW0], completed := [planVotes],
    temporaryResumeState := StateKind.eStateSuspended }

/-- C6 counterexample: with the temporary resume state suspended and no stop
reason, `ShouldReportRun` still delegates to the completed plan (returning
yes) instead of returning the claimed no-opinion vote. -/
theorem shouldReportRun_missing_guards_cex :
    stateC6.temporaryResumeState = StateKind.eStateSuspended ∧
    threadStoppedForAReason stateC6 = false ∧
    shouldReportRun stateC6 = Vote.eVoteYes := by decide

/-! ## C8: DiscardThreadPlans(force = true) -/

theorem discardForce_cons :
    ∀ (rest : List Plan) (s : ThreadState) (b : Plan),
    s.planStack = b :: rest →
    discardThreadPlansForce s =
      { s with planStack := [b], discarded := s.discarded ++ rest.reverse } := by
  intro rest
  induction rest using List.reverseRecOn with
  | nil =>
    intro s b hs
    unfold discardThreadPlansForce
    rw [hs]
    show iterateDiscard 0 s = _
    show s = _
    conv_rhs => rw [← hs]
    simp
  | append_singleton rs p ih =>
    intro s b hs
    have hsplit : s.planStack = (b :: rs) ++ [p] := by rw [hs]; simp
    have hd : discardPlan s =
        { s with planStack := b :: rs, discarded := s.discarded ++ [p] } :=
      discardPlan_concat s (b :: rs) p hsplit (by simp)
    unfold discardThreadPlansForce
    rw [hs]
    have hlen : (b :: (rs ++ [p])).length - 1 = rs.length + 1 := by simp
    rw [hlen]
    show iterateDiscard rs.length (discardPlan s) = _
    rw [hd]
    have hih := ih { s with planStack := b :: rs,
                            discarded := s.discarded ++ [p] } b rfl
    unfold discardThreadPlansForce at hih
    simp only [List.length_cons, Nat.add_sub_cancel] at hih
    rw [hih]
    simp [List.reverse_append, List.append_assoc]

/-- Effect of `DiscardThreadPlans(true)`: only the bottom plan stays active,
the formerly active non-base plans are appended (top first) to the discarded
history, and the completed history is untouched, so no previously active
plan can newly appear there. -/
def C8Prop (s : ThreadState) (b : Plan) (rest : List Plan) : Prop :=
  (discardThreadPlansForce s).planStack = [b] ∧
  (discardThreadPlansForce s).completed = s.completed ∧
  (discardThreadPlansForce s).discarded = s.discarded ++ rest.reverse ∧
  (∀ p ∈ rest, p ∈ (discardThreadPlansForce s).discarded) ∧
  (∀ p ∈ rest, p ∉ s.completed → p ∉ (discardThreadPlansForce s).completed)

/-- C8: after `DiscardThreadPlans(force=true)` the active stack is exactly
the base plan, every previously active non-base plan is in the discarded
history, and none of them entered the completed history. -/
theorem discardThreadPlans_force_spec (s : ThreadState) (b : Plan)
    (rest : List Plan) (hs : s.planStack = b :: rest) : C8Prop s b rest := by
  have h := discardForce_cons rest s b hs
  refine ⟨by rw [h], by rw [h], by rw [h], ?_, ?_⟩
  · intro p hp
    rw [h]
    show p ∈ s.discarded ++ rest.reverse
    exact List.mem_append.mpr (Or.inr (List.mem_reverse.mpr hp))
  · intro p _ hnc
    rw [h]
    exact hnc

theorem discardThreadPlans_force_witness :
    stateC1.planStack = planW0 :: [planW1] ∧ C8Prop stateC1 planW0 [planW1] :=
  ⟨by decide, discardThreadPlans_force_spec stateC1 planW0 [planW1] (by decide)⟩

/-! ## C7: termination of DiscardThreadPlans(force = false) -/

theorem firstMasterFromTop_mem :
    ∀ (l : List Plan) (m : Nat) (p : Plan),
    firstMasterFromTop l = some (m, p) → l[m]? = some p ∧ p.isMaster = true
  | [], m, p, h => by simp [firstMasterFromTop] at h
  | x :: rest, m, p, h => by
    unfold firstMasterFromTop at h
    cases hr : firstMasterFromTop rest with
    | some ip =>
      obtain ⟨i, r⟩ := ip
      rw [hr] at h
      dsimp only at h
      simp only [Option.some.injEq, Prod.mk.injEq] at h
      obtain ⟨hm, hp⟩ := h
      subst hm; subst hp
      have hrec := firstMasterFromTop_mem rest i r hr
      exact ⟨by simpa using hrec.1, hrec.2⟩
    | none =>
      rw [hr] at h
      dsimp only at h
      by_cases hx : x.isMaster = true
      · rw [if_pos hx] at h
        simp only [Option.some.injEq, Prod.mk.injEq] at h
        obtain ⟨hm, hp⟩ := h
        subst hm; subst hp
        exact ⟨by simp, hx⟩
      · rw [if_neg hx] at h
        exact absurd h (by simp)

theorem firstMasterFromTop_none :
    ∀ (l : List Plan), firstMasterFromTop l = none →
    ∀ (j : Nat) (q : Plan), l[j]? = some q → q.isMaster = false
  | [], _, j, q, hj => by simp at hj
  | x :: rest, h, j, q, hj => by
    unfold firstMasterFromTop at h
    cases hr : firstMasterFromTop rest with
    | some ip =>
      obtain ⟨i, r⟩ := ip
      rw [hr] at h
      dsimp only at h
      exact absurd h (by simp)
    | none =>
      rw [hr] at h
      dsimp only at h
      by_cases hx : x.isMaster = true
      · rw [if_pos hx] at h; exact absurd h (by simp)
      · rw [if_neg hx] at h
        match j, hj with
        | 0, hj =>
          rw [List.getElem?_cons_zero, Option.some.injEq] at hj
          subst hj
          exact eq_false_of_ne_true hx
        | Nat.succ j', hj =>
          rw [List.getElem?_cons_succ] at hj
          exact firstMasterFromTop_none rest hr j' q hj

theorem firstMasterFromTop_max :
    ∀ (l : List Plan) (m : Nat) (p : Plan),
    firstMasterFromTop l = some (m, p) →
    ∀ (j : Nat) (q : Plan), l[j]? = some q → q.isMaster = true → j ≤ m
  | [], m, p, h, _, _, _, _ => by simp [firstMasterFromTop] at h
  | x :: rest, m, p, h, j, q, hj, hq => by
    unfold firstMasterFromTop at h
    cases hr : firstMasterFromTop rest with
    | some ip =>
      obtain ⟨i, r⟩ := ip
      rw [hr] at h
      dsimp only at h
      simp only [Option.some.injEq, Prod.mk.injEq] at h
      obtain ⟨hm, _⟩ := h
      subst hm
      match j, hj with
      | 0, _ => omega
      | Nat.succ j', hj =>
        rw [List.getElem?_cons_succ] at hj
        have := firstMasterFromTop_max rest i r hr j' q hj hq
        omega
    | none =>
      rw [hr] at h
      dsimp only at h
      by_cases hx : x.isMaster = true
      · rw [if_pos hx] at h
        simp only [Option.some.injEq, Prod.mk.injEq] at h
        obtain ⟨hm, _⟩ := h
        subst hm
        match j, hj with
        | 0, _ => omega
        | Nat.succ j', hj =>
          rw [List.getElem?_cons_succ] at hj
          have := firstMasterFromTop_none rest hr j' q hj
          rw [hq] at this
          cases this
      · rw [if_neg hx] at h
        exact absurd h (by simp)

theorem iterateDiscard_stack :
    ∀ (k : Nat) (s : ThreadState), k + 1 ≤ s.planStack.length →
    (iterateDiscard k s).planStack = s.planStack.take (s.planStack.length - k)
  | 0, s, _ => by
    show s.planStack = _
    simp
  | Nat.succ k, s, h => by
    rcases List.eq_nil_or_concat s.planStack with hnil | ⟨L, p, hLp⟩
    · rw [hnil] at h; simp at h
    · rw [List.concat_eq_append] at hLp
      have hLne : L ≠ [] := by
        intro he
        subst he
        rw [hLp] at h
        simp only [List.nil_append, List.length_cons, List.length_nil] at h
        omega
      have hd := discardPlan_concat s L p hLp hLne
      show (iterateDiscard k (discardPlan s)).planStack = _
      rw [hd]
      have hlen : s.planStack.length = L.length + 1 := by rw [hLp]; simp
      have hih := iterateDiscard_stack k
        { s with planStack := L, discarded := s.discarded ++ [p] }
        (by dsimp only; omega)
      dsimp only at hih
      rw [hih, hLp]
      have hidx : (L ++ [p]).length - (k + 1) = L.length - k := by
        simp only [List.length_append, List.length_cons, List.length_nil]
        omega
      rw [hidx]
      rw [List.take_append_of_le_length (by omega)]

/-- Some plan on the active stack is a master plan that is not okay to
discard (in the program this is the base plan at index 0). -/
def HasBlockingMaster (s : ThreadState) : Prop :=
  ∃ (j : Nat) (p : Plan),
    s.planStack[j]? = some p ∧ p.isMaster = true ∧ p.okayToDiscard = false

theorem discardStep_decreases (s s' : ThreadState) (h : HasBlockingMaster s)
    (hstep : discardThreadPlansStep s = some s') :
    s'.planStack.length < s.planStack.length ∧ HasBlockingMaster s' := by
  obtain ⟨j, pj, hj, hjm, hjo⟩ := h
  unfold discardThreadPlansStep at hstep
  cases hm : firstMasterFromTop s.planStack with
  | none => rw [hm] at hstep; exact absurd hstep (by simp)
  | some ip =>
    obtain ⟨m, p⟩ := ip
    rw [hm] at hstep
    dsimp only at hstep
    have hmem := firstMasterFromTop_mem _ _ _ hm
    by_cases hok : p.okayToDiscard = true
    · rw [if_pos hok, Option.some.injEq] at hstep
      have hjle : j ≤ m := firstMasterFromTop_max _ _ _ hm j pj hj hjm
      have hne : j ≠ m := by
        intro he
        subst he
        rw [hj, Option.some.injEq] at hmem
        rw [← hmem.1] at hok
        rw [hjo] at hok
        cases hok
      have hjlt : j < m := lt_of_le_of_ne hjle hne
      have hmlt : m < s.planStack.length := (List.getElem?_eq_some.mp hmem.1).1
      have hstack1 : (iterateDiscard (s.planStack.length - 1 - m) s).planStack
          = s.planStack.take (m + 1) := by
        rw [iterateDiscard_stack _ s (by omega)]
        congr 1
        omega
      have hmpos : 0 < m := by omega
      rw [if_pos hmpos] at hstep
      have htk : s.planStack.take (m + 1) = s.planStack.take m ++ [p] := by
        rw [List.take_succ, hmem.1]
        rfl
      have htkne : s.planStack.take m ≠ [] := by
        intro he
        have : (s.planStack.take m).length = m :=
          List.length_take_of_le (by omega)
        rw [he] at this
        simp at this
        omega
      have hd := discardPlan_concat (iterateDiscard (s.planStack.length - 1 - m) s)
        (s.planStack.take m) p (by rw [hstack1, htk]) htkne
      rw [hd] at hstep
      subst hstep
      constructor
      · show (s.planStack.take m).length < _
        rw [List.length_take_of_le (by omega)]
        omega
      · refine ⟨j, pj, ?_, hjm, hjo⟩
        show (s.planStack.take m)[j]? = some pj
        rw [List.getElem?_take_of_lt hjlt]
        exact hj
    · rw [if_neg hok] at hstep
      exact absurd hstep (by simp)

theorem discardLoop_term :
    ∀ (fuel : Nat) (s : ThreadState), s.planStack.length ≤ fuel →
    HasBlockingMaster s → ∃ n s', discardThreadPlansLoop n s = some s'
  | fuel, s, hf, h => by
    cases hstep : discardThreadPlansStep s with
    | none => exact ⟨1, s, by simp [discardThreadPlansLoop, hstep]⟩
    | some s1 =>
      have hd := discardStep_decreases s s1 h hstep
      match fuel, hf with
      | 0, hf =>
        have := hd.1
        omega
      | Nat.succ fuel', hf =>
        obtain ⟨n, s', hn⟩ := discardLoop_term fuel' s1 (by omega) hd.2
        exact ⟨n + 1, s', by simp [discardThreadPlansLoop, hstep, hn]⟩

/-- C7 (amended): on every plan stack holding some master plan that is not
okay to discard — as the base plan always is in the program — the
`DiscardThreadPlans(force=false)` loop terminates, and the bottom-most plan
is never discarded. -/
theorem discardThreadPlans_no_force_terminates (s : ThreadState)
    (h : HasBlockingMaster s) :
    ∃ n s', discardThreadPlansLoop n s = some s' ∧
      s'.planStack.head? = s.planStack.head? ∧ s'.planStack ≠ [] := by
  have hne : s.planStack ≠ [] := by
    obtain ⟨j, p, hj, _, _⟩ := h
    intro he
    rw [he] at hj
    simp at hj
  obtain ⟨n, s', hn⟩ := discardLoop_term s.planStack.length s le_rfl h
  have hp := discardThreadPlansLoop_preserve n s s' hne hn
  exact ⟨n, s', hn, hp.1, hp.2⟩

theorem discardThreadPlans_no_force_witness :
    HasBlockingMaster stateC1 ∧
    (∃ n s', discardThreadPlansLoop n stateC1 = some s' ∧
      s'.planStack.head? = stateC1.planStack.head? ∧ s'.planStack ≠ []) :=
  ⟨⟨0, planW0, by decide, by decide, by decide⟩,
   discardThreadPlans_no_force_terminates stateC1
     ⟨0, planW0, by decide, by decide, by decide⟩⟩

/-- A master plan that is okay to discard, sitting at the bottom of the
stack. -/
def planDM : Plan := { id := 5, isMaster := true, okayToDiscard := true }

/-- Counterexample state for C7: a stack whose only (bottom) plan is a
discardable master plan. -/
def stateC7 : ThreadState := { planStack := [planDM] }

/-- C7 counterexample: on `stateC7` the loop body of
`DiscardThreadPlans(false)` leaves the state unchanged without breaking
(the first-found master plan is okay to discard, but there is nothing above
it and the bottom entry is never discarded), so the claimed termination for
EVERY plan stack fails: the loop never breaks regardless of fuel. -/
theorem discardThreadPlans_nontermination_cex :
    discardThreadPlansStep stateC7 = some stateC7 ∧
    discardLoopRunsForever stateC7 := by
  constructor
  · decide
  · intro n
    induction n with
    | zero => rfl
    | succ n ih =>
      show discardThreadPlansLoop (n + 1) stateC7 = none
      unfold discardThreadPlansLoop
      rw [show discardThreadPlansStep stateC7 = some stateC7 from by decide]
      exact ih

/-! ## Lemmas on GetPreviousPlan and the explaining-plan scan -/

theorem prevInList_eq_none :
    ∀ (l : List Plan) (pid : Nat), (∀ q ∈ l.tail, q.id ≠ pid) →
    prevInList l pid = none
  | [], _, _ => rfl
  | [_], _, _ => rfl
  | a :: b :: rest, pid, h => by
    have hd : prevInList (b :: rest) pid = none :=
      prevInList_eq_none (b :: rest) pid
        (fun q hq => h q (List.mem_cons_of_mem b hq))
    have hb : (b.id == pid) = false := by
      have := h b (List.mem_cons_self b rest)
      simp [this]
    unfold prevInList
    rw [hd, hb]
    simp

theorem prevInList_concat_mid :
    ∀ (l : List Plan) (a c : Plan) (r : List Plan),
    (∀ q ∈ r, q.id ≠ c.id) →
    prevInList (l ++ a :: c :: r) c.id = some a
  | [], a, c, r, h => by
    have hd : prevInList (c :: r) c.id = none :=
      prevInList_eq_none (c :: r) c.id (fun q hq => h q hq)
    show prevInList (a :: c :: r) c.id = some a
    unfold prevInList
    rw [hd]
    simp
  | x :: l', a, c, r, h => by
    have hrec := prevInList_concat_mid l' a c r h
    show prevInList (x :: (l' ++ a :: c :: r)) c.id = some a
    cases hll : l' ++ a :: c :: r with
    | nil => exact absurd hll (by simp)
    | cons y rest =>
      rw [hll] at hrec
      unfold prevInList
      rw [hrec]

/-- Freshness of an id after its position, extracted from a Nodup id list. -/
theorem nodup_ids_fresh (l X Y : List Plan) (c : Plan)
    (h : (l.map Plan.id).Nodup) (hs : l = X ++ c :: Y) :
    ∀ q ∈ Y, q.id ≠ c.id := by
  subst hs
  intro q hq
  rw [List.map_append, List.map_cons] at h
  have h2 := List.Nodup.of_append_right h
  rw [List.nodup_cons] at h2
  intro he
  exact h2.1 (he ▸ List.mem_map_of_mem Plan.id hq)

/-- `GetPreviousPlan` on a plan of the active stack returns the plan directly
below it, provided no completed plan shares its id and no higher stack entry
shares its id. -/
theorem getPreviousPlan_active (s : ThreadState) (l : List Plan)
    (a c : Plan) (r : List Plan)
    (hs : s.planStack = l ++ a :: c :: r)
    (hc : ∀ q ∈ s.completed, q.id ≠ c.id)
    (hr : ∀ q ∈ r, q.id ≠ c.id) :
    getPreviousPlan s c.id = some a := by
  unfold getPreviousPlan
  have h1 : prevInList s.completed c.id = none :=
    prevInList_eq_none _ _ (fun q hq => hc q (List.mem_of_mem_tail hq))
  rw [h1]
  cases hh : s.completed.head? with
  | none =>
    dsimp only
    rw [hs]
    exact prevInList_concat_mid l a c r hr
  | some c0 =>
    have hc0 : ¬ ((c0.id == c.id) = true) := by
      have hmem : c0 ∈ s.completed := List.mem_of_mem_head? hh
      simp [hc c0 hmem]
    dsimp only
    rw [if_neg hc0, hs]
    exact prevInList_concat_mid l a c r hr

/-- The downward scan of `ShouldStop` walks from the plan just above `mid`
down through the non-explaining plans of `mid` and stops at `e`, the first
explaining plan below, whatever sits above the starting plan. -/
theorem scan_finds_explaining :
    ∀ (mid : List Plan) (c : Plan) (post : List Plan) (fuel : Nat)
      (s : ThreadState) (l : List Plan) (e : Plan),
    s.planStack = l ++ e :: (mid ++ c :: post) →
    e.explains = true →
    (∀ q ∈ mid, q.explains = false) →
    (∀ q ∈ s.completed, ∀ x ∈ s.planStack, q.id ≠ x.id) →
    (s.planStack.map Plan.id).Nodup →
    mid.length + 1 ≤ fuel →
    scanForExplainingPlan fuel s c.id = some e := by
  intro mid
  induction mid using List.reverseRecOn with
  | nil =>
    intro c post fuel s l e hs he _ hdisj hnd hfuel
    have hcmem : c ∈ s.planStack := by rw [hs]; simp
    have hprev : getPreviousPlan s c.id = some e := by
      refine getPreviousPlan_active s l e c post hs ?_ ?_
      · exact fun q hq => hdisj q hq c hcmem
      · exact nodup_ids_fresh s.planStack (l ++ [e]) post c hnd
          (by rw [hs]; simp)
    match fuel, hfuel with
    | Nat.succ f, _ =>
      unfold scanForExplainingPlan
      rw [hprev]
      dsimp only
      rw [if_pos he]
  | append_singleton ms q ih =>
    intro c post fuel s l e hs he hmid hdisj hnd hfuel
    have hcmem : c ∈ s.planStack := by rw [hs]; simp
    have hshape : s.planStack = (l ++ e :: ms) ++ q :: c :: post := by
      rw [hs]; simp
    have hprev : getPreviousPlan s c.id = some q := by
      refine getPreviousPlan_active s (l ++ e :: ms) q c post hshape ?_ ?_
      · exact fun x hx => hdisj x hx c hcmem
      · exact nodup_ids_fresh s.planStack (l ++ e :: ms ++ [q]) post c hnd
          (by rw [hs]; simp)
    have hq : q.explains = false := hmid q (by simp)
    match fuel, hfuel with
    | Nat.succ f, hfuel =>
      unfold scanForExplainingPlan
      rw [hprev]
      dsimp only
      rw [if_neg (by simp [hq])]
      exact ih q (c :: post) f s l e (by rw [hs]; simp) he
        (fun x hx => hmid x (by simp [hx])) hdisj hnd
        (by simp at hfuel; omega)

/-- The do-while pop loop of `ShouldStop`: popping stops exactly when the
plan below the explaining plan becomes the top; every popped plan lands in
the completed history, top first, and `WillStop` is called on each popped
plan when the verdict is to stop. -/
theorem popLoop_spec :
    ∀ (rest : List Plan), rest ≠ [] →
    ∀ (s : ThreadState) (l : List Plan) (a : Plan) (stop : Bool)
      (tr : List Nat) (fuel : Nat),
    s.planStack = (l ++ [a]) ++ rest →
    (∀ p ∈ rest, p.id ≠ a.id) →
    rest.length ≤ fuel →
    popLoop fuel (some a.id) stop s tr =
      ({ s with planStack := l ++ [a],
                completed := s.completed ++ rest.reverse },
       tr ++ (if stop then rest.reverse.map Plan.id else [])) := by
  intro rest
  induction rest using List.reverseRecOn with
  | nil => intro h; exact absurd rfl h
  | append_singleton rs p ih =>
    intro _ s l a stop tr fuel hs hfresh hfuel
    have hlen : (rs ++ [p]).length = rs.length + 1 := by simp
    cases fuel with
    | zero => rw [hlen] at hfuel; omega
    | succ f =>
      have hlast : s.planStack.getLast? = some p := by
        rw [hs, ← List.append_assoc, List.getLast?_concat]
      have hpop : popPlan s =
          { s with planStack := (l ++ [a]) ++ rs,
                   completed := s.completed ++ [p] } := by
        refine popPlan_concat s ((l ++ [a]) ++ rs) p ?_ (by simp)
        rw [hs]
        simp [List.append_assoc]
      unfold popLoop
      rw [hlast]
      dsimp only
      rw [hpop]
      rcases List.eq_nil_or_concat rs with hnil | ⟨rs', q, hq⟩
      · subst hnil
        have hguard : ((((l ++ [a]) ++ ([] : List Plan)).getLast?).map Plan.id
            == some a.id) = true := by
          simp
        rw [hguard]
        cases stop <;> simp
      · rw [List.concat_eq_append] at hq
        subst hq
        have hqfresh : q.id ≠ a.id := hfresh q (by simp)
        have hguard : ((((l ++ [a]) ++ (rs' ++ [q])).getLast?).map Plan.id
            == some a.id) = false := by
          rw [← List.append_assoc, List.getLast?_concat]
          simp [hqfresh]
        rw [hguard]
        rw [if_neg (by simp)]
        have hrec := ih (by simp)
          { s with planStack := (l ++ [a]) ++ (rs' ++ [q]),
                   completed := s.completed ++ [p] }
          l a stop (if stop = true then tr ++ [p.id] else tr) f rfl
          (fun x hx => hfresh x (by simp [List.mem_append] at hx ⊢; tauto))
          (by simp at hfuel ⊢; omega)
        rw [hrec]
        cases stop <;> simp

/-! ## C2: the explaining-plan phase of ShouldStop -/

/-- C2 (amended): when the downward scan of `ShouldStop` finds that the first
previous plan explaining the stop (`e`, with only non-explaining plans
between it and the non-explaining top `t`) reports `MischiefManaged`, every
plan from the top down through and including `e` is popped to the completed
history (with `WillStop` called on each when the verdict is to stop), the
verdict so far is `e`'s `ShouldStop` answer, and
`done_processing_current_plan` is set exactly when `e` is a master plan that
is NOT okay to discard — i.e. in that case processing is considered fully
resolved, while otherwise (`done = false`) the final verdict is deferred to
the plan now on top. -/
theorem resolveCurrentPlan_spec (s : ThreadState) (low : List Plan)
    (a e : Plan) (mid : List Plan) (t : Plan)
    (hs : s.planStack = low ++ a :: e :: (mid ++ [t]))
    (he : e.explains = true) (hm : e.mischief = true)
    (hmid : ∀ q ∈ mid, q.explains = false)
    (ht : t.explains = false) (htr : t.tracerExplains = false)
    (hnd : (s.planStack.map Plan.id).Nodup)
    (hdisj : ∀ q ∈ s.completed, ∀ x ∈ s.planStack, q.id ≠ x.id) :
    resolveCurrentPlan s =
      ⟨{ s with planStack := low ++ [a],
                completed := s.completed ++ (e :: (mid ++ [t])).reverse },
       e.shouldStopAns,
       e.isMaster && !e.okayToDiscard,
       if e.shouldStopAns then (e :: (mid ++ [t])).reverse.map Plan.id
       else []⟩ := by
  have hlast : s.planStack.getLast? = some t := by
    rw [hs]
    rw [show low ++ a :: e :: (mid ++ [t])
        = (low ++ a :: e :: mid) ++ [t] by simp]
    exact List.getLast?_concat _
  have hscan : scanForExplainingPlan
      (s.completed.length + s.planStack.length) s t.id = some e := by
    refine scan_finds_explaining mid t [] _ s (low ++ [a]) e
      (by rw [hs]; simp) he hmid hdisj hnd ?_
    rw [hs]
    simp
    omega
  have hemem : e ∈ s.planStack := by rw [hs]; simp
  have hprev : getPreviousPlan s e.id = some a := by
    refine getPreviousPlan_active s low a e (mid ++ [t]) hs ?_ ?_
    · exact fun q hq => hdisj q hq e hemem
    · exact nodup_ids_fresh s.planStack (low ++ [a]) (mid ++ [t]) e hnd
        (by rw [hs]; simp)
  have hpops : popLoop s.planStack.length (some a.id) e.shouldStopAns s [] =
      ({ s with planStack := low ++ [a],
                completed := s.completed ++ (e :: (mid ++ [t])).reverse },
       [] ++ (if e.shouldStopAns then
         (e :: (mid ++ [t])).reverse.map Plan.id else [])) := by
    refine popLoop_spec (e :: (mid ++ [t])) (by simp) s low a
      e.shouldStopAns [] s.planStack.length (by rw [hs]; simp) ?_ ?_
    · exact nodup_ids_fresh s.planStack low (e :: (mid ++ [t])) a hnd hs
    · rw [hs]; simp; omega
  unfold resolveCurrentPlan
  rw [hlast]
  simp [ht, htr, hscan, hm, hprev, hpops]

/-- Plans of the C2 counterexample: the explaining master plan that is not
okay to discard, and the non-explaining top plan. -/
def planE : Plan :=
  { id := 21, explains := true, mischief := true, isMaster := true,
    shouldStopAns := true }

/-- Non-explaining top plan above `planE`. -/
def planT : Plan := { id := 22 }

/-- Counterexample state for C2. -/
def stateC2 : ThreadState := { planStack := [planW0, planE, planT] }

/-- C2 counterexample: the explaining plan is a master plan with
`OkayToDiscard` false and `MischiefManaged` true; the plans above it and
itself ARE popped to the completed history, but
`done_processing_current_plan` is set to TRUE (processing fully resolved),
not the claimed false/deferred. -/
theorem shouldStop_done_flag_cex :
    planE.isMaster = true ∧ planE.okayToDiscard = false ∧
    (resolveCurrentPlan stateC2).done = true ∧
    (resolveCurrentPlan stateC2).state.planStack = [planW0] ∧
    (resolveCurrentPlan stateC2).state.completed = [planT, planE] := by
  decide

/-- Witness plans for the C2 amended theorem. -/
def planA2 : Plan := { id := 30 }

/-- Explaining, mischief-managed, discardable plan for the C2 witness. -/
def planE2 : Plan :=
  { id := 31, explains := true, mischief := true, shouldStopAns := true,
    okayToDiscard := true }

/-- Intermediate non-explaining plan for the C2 witness. -/
def planM2 : Plan := { id := 32 }

/-- Top non-explaining plan for the C2 witness. -/
def planT2 : Plan := { id := 33 }

/-- Witness state for the C2 amended theorem. -/
def stateC2W : ThreadState :=
  { planStack := [planW0, planA2, planE2, planM2, planT2] }

/-- Expected result of the C2 witness run. -/
def resolveC2Wexpected : StopResolution :=
  StopResolution.mk
    { stateC2W with
        planStack := [planW0] ++ [planA2]
        completed := stateC2W.completed
          ++ (planE2 :: ([planM2] ++ [planT2])).reverse }
    planE2.shouldStopAns
    (planE2.isMaster && !planE2.okayToDiscard)
    (if planE2.shouldStopAns then
       (planE2 :: ([planM2] ++ [planT2])).reverse.map Plan.id
     else [])

theorem resolveCurrentPlan_spec_witness :
    (stateC2W.planStack = [planW0] ++ planA2 :: planE2 ::
        ([planM2] ++ [planT2]) ∧
     planE2.explains = true ∧ planE2.mischief = true ∧
     (∀ q ∈ [planM2], q.explains = false) ∧
     planT2.explains = false ∧ planT2.tracerExplains = false ∧
     (stateC2W.planStack.map Plan.id).Nodup ∧
     (∀ q ∈ stateC2W.completed, ∀ x ∈ stateC2W.planStack, q.id ≠ x.id)) ∧
    resolveCurrentPlan stateC2W = resolveC2Wexpected :=
  ⟨⟨by decide, by decide, by decide, by decide, by decide, by decide,
    by decide, by decide⟩,
   resolveCurrentPlan_spec stateC2W [planW0] planA2 planE2 [planM2] planT2
     (by decide) (by decide) (by decide) (by decide) (by decide) (by decide)
     (by decide) (by decide)⟩

/-! ## C3: the top-plan loop of ShouldStop -/

/-- C3 (amended): one round of the top-plan loop with a non-base top plan:
a plan that is not `MischiefManaged` ends the loop with its verdict; a
mischief-managed plan gets `WillStop` (traced) when its verdict is to stop
and is then popped to the completed history — if it is a master plan that
wants to stop and is not okay to discard, it is popped all the same and the
loop ends immediately with its verdict; otherwise the loop continues with
the new top. -/
theorem topPlanLoop_spec (n : Nat) (s : ThreadState) (l : List Plan)
    (cp : Plan) (stop : Bool) (tr : List Nat)
    (hs : s.planStack = l ++ [cp]) (hl : l ≠ [])
    (hnb : planIsBasePlan s cp = false) :
    topPlanLoop (n + 1) s stop tr =
      if cp.mischief = false then (s, cp.shouldStopAns, tr)
      else if cp.shouldStopAns && cp.isMaster && !cp.okayToDiscard then
        ({ s with planStack := l, completed := s.completed ++ [cp] },
         cp.shouldStopAns, tr ++ [cp.id])
      else
        topPlanLoop n
          { s with planStack := l, completed := s.completed ++ [cp] }
          cp.shouldStopAns
          (if cp.shouldStopAns then tr ++ [cp.id] else tr) := by
  have hlast : s.planStack.getLast? = some cp := by
    rw [hs]; exact List.getLast?_concat _
  have hpop : popPlan s =
      { s with planStack := l, completed := s.completed ++ [cp] } :=
    popPlan_concat s l cp hs hl
  obtain ⟨l', x, hlx⟩ : ∃ l' x, l = l' ++ [x] := by
    rcases List.eq_nil_or_concat l with h | ⟨l', x, h⟩
    · exact absurd h hl
    · exact ⟨l', x, by rw [h, List.concat_eq_append]⟩
  have hlast2 : l.getLast? = some x := by
    rw [hlx]; exact List.getLast?_concat _
  rw [topPlanLoop]
  rw [hlast]
  simp only [hnb, Bool.false_eq_true, if_false]
  cases hm : cp.mischief with
  | false => simp
  | true =>
    simp only [Bool.true_eq_false, if_false, if_true]
    cases hg : cp.shouldStopAns && cp.isMaster && !cp.okayToDiscard with
    | true =>
      have hstop : cp.shouldStopAns = true := by
        rcases Bool.and_eq_true_iff.mp hg with ⟨h1, _⟩
        rcases Bool.and_eq_true_iff.mp h1 with ⟨h2, _⟩
        exact h2
      simp [hg, hstop, hpop]
    | false =>
      simp only [Bool.false_eq_true, if_false]
      rw [hpop]
      dsimp only
      rw [hlast2]

/-- Mischief-managed master plan wanting to stop, not okay to discard. -/
def planMstr : Plan :=
  { id := 41, mischief := true, shouldStopAns := true, isMaster := true }

/-- Counterexample state for C3. -/
def stateC3 : ThreadState := { planStack := [planW0, planMstr] }

/-- C3 counterexample: the top plan is mischief-managed, wants to stop, is a
master plan and not okay to discard.  The loop does end immediately with its
verdict, but the plan does NOT stay on the active stack: it is popped to the
completed history. -/
theorem topPlanLoop_master_stays_cex :
    planMstr.mischief = true ∧ planMstr.shouldStopAns = true ∧
    planMstr.isMaster = true ∧ planMstr.okayToDiscard = false ∧
    (topPlanLoop 2 stateC3 true []).1.planStack = [planW0] ∧
    planMstr ∈ (topPlanLoop 2 stateC3 true []).1.completed ∧
    (topPlanLoop 2 stateC3 true []).2.1 = true := by decide

/-- Expected result of the C3 witness run. -/
def topPlanLoopC3expected : ThreadState × Bool × List Nat :=
  if planMstr.mischief = false then (stateC3, planMstr.shouldStopAns, [])
  else if planMstr.shouldStopAns && planMstr.isMaster
      && !planMstr.okayToDiscard then
    ({ stateC3 with
        planStack := [planW0]
        completed := stateC3.completed ++ [planMstr] },
     planMstr.shouldStopAns, [] ++ [planMstr.id])
  else
    topPlanLoop 3
      { stateC3 with
          planStack := [planW0]
          completed := stateC3.completed ++ [planMstr] }
      planMstr.shouldStopAns
      (if planMstr.shouldStopAns then [] ++ [planMstr.id] else [])

theorem topPlanLoop_spec_witness :
    (stateC3.planStack = [planW0] ++ [planMstr] ∧ ([planW0] : List Plan) ≠ []
      ∧ planIsBasePlan stateC3 planMstr = false) ∧
    topPlanLoop 4 stateC3 false [] = topPlanLoopC3expected :=
  ⟨⟨by decide, by decide, by decide⟩,
   topPlanLoop_spec 3 stateC3 [planW0] planMstr false []
     (by decide) (by decide) (by decide)⟩

end LLDB
